import Mathlib

/-!
# Verification of the Ollama meeting-summariser (`src/summarizer/summarise.ts`)

This file shallowly embeds the core logic of the summariser script:

* the token-aware sliding-window chunker `splitTokens` (source lines 81–103),
* the retrying generation client `ask` (lines 106–144),
* the output formatter `formatOutput` for `plain`/`json`/`markdown` (lines 174–248),
* the transcript preprocessor `preprocessTranscript` / `extractSpeaker` (lines 261–297),
* the main pipeline (lines 300–441), including the service-reachability check.

JavaScript strings are modelled as `String`/`List Char`; the `for`-loop of the
chunker is modelled with an explicit fuel argument (the loop does not terminate
for step 0, which the fuel makes observable: no fuel suffices).  External
collaborators (tiktoken tokenizer, the Ollama generation service) are modelled
as parameters: a `Tok` structure with `encode`/`decode` and a response oracle.
-/

namespace Summarise

/-- The whitespace class of JavaScript's regex `\s` (also the set trimmed by
`String.prototype.trim`). -/
def isJsSpace (c : Char) : Bool :=
  c = ' ' || c = '\t' || c = '\n' || c = '\r' || c = '\u000b' || c = '\u000c' ||
  c = '\u00a0' || c = '\u1680' || ('\u2000' ≤ c && c ≤ '\u200a') ||
  c = '\u2028' || c = '\u2029' || c = '\u202f' || c = '\u205f' ||
  c = '\u3000' || c = '\ufeff'

def isAsciiUpper (c : Char) : Bool := 'A' ≤ c && c ≤ 'Z'

def isAsciiLower (c : Char) : Bool := 'a' ≤ c && c ≤ 'z'

def isAsciiLetter (c : Char) : Bool := isAsciiUpper c || isAsciiLower c

def isAsciiDigit (c : Char) : Bool := '0' ≤ c && c ≤ '9'

/-- ASCII lower-casing; for an ASCII pattern, matching under the regex `i` flag
(without the `u` flag) is exactly ASCII-case-insensitive comparison. -/
def toLowerAscii (c : Char) : Char :=
  if isAsciiUpper c then Char.ofNat (c.toNat + 32) else c

/-- Case-insensitive character comparison as performed by an `/i` regex on an
ASCII pattern character. -/
def ciEq (p t : Char) : Bool := toLowerAscii p = toLowerAscii t

/-- `JavaScript`'s `String.prototype.trim` on a character list. -/
def jsTrimL (cs : List Char) : List Char :=
  ((cs.dropWhile isJsSpace).reverse.dropWhile isJsSpace).reverse

/-- `String.prototype.trim`. -/
def jsTrim (s : String) : String := String.mk (jsTrimL s.toList)

/-- The tokenizer adapter (tiktoken `encode`/`decode`), an external collaborator
of the script (`getTokenizer`, lines 46–78); modelled abstractly. -/
structure Tok where
  encode : String → List Nat
  decode : List Nat → String

/-- A concrete tokenizer instance used for evaluating witnesses: one token per
character. -/
def charTok : Tok :=
  ⟨fun s => s.toList.map Char.toNat, fun l => String.mk (l.map Char.ofNat)⟩

/-! ## The chunker (`splitTokens`, lines 81–103)

```
function* splitTokens(txt, enc, size, overlap = DEFAULT_OVERLAP) {
  const toks = enc.encode(txt);
  const step = Math.floor(size * (1 - overlap));
  if (toks.length <= size) { yield txt; return; }
  for (let i = 0; i < toks.length; i += step) {
    const chunkTokens = toks.slice(i, i + size);
    const chunk = enc.decode(chunkTokens);
    yield chunk;
  }
}
```
-/

/-- `Math.floor(size * (1 - overlap))`, the loop step.  The overlap fraction is
modelled as a rational. -/
def stepOf (size : Nat) (overlap : ℚ) : Nat :=
  (⌊(size : ℚ) * (1 - overlap)⌋).toNat

/-- The chunking `for`-loop (lines 91–102) at token level: starting at offset
`i`, yield `toks.slice(i, i + size)` while `i < toks.length`, incrementing `i`
by `step`.  `fuel` bounds the number of iterations; `none` means the fuel was
exhausted, i.e. the source loop would still be running.  With `step = 0` the
source loop never terminates, and correspondingly no fuel yields `some`. -/
def chunkLoop (toks : List Nat) (size step : Nat) : Nat → Nat → Option (List (List Nat))
  | fuel, i =>
    if i < toks.length then
      match fuel with
      | 0 => none
      | f + 1 =>
        match chunkLoop toks size step f (i + step) with
        | none => none
        | some rest => some (((toks.drop i).take size) :: rest)
    else some []

/-- `splitTokens`: the list of yielded chunks.  `none` models divergence of the
source loop (only possible when the computed step is 0, see `stepOf`). -/
def splitTokens (txt : String) (tok : Tok) (size : Nat) (overlap : ℚ) : Option (List String) :=
  let toks := tok.encode txt
  if toks.length ≤ size then some [txt]
  else (chunkLoop toks size (stepOf size overlap) (toks.length + 1) 0).map
    (fun ws => ws.map tok.decode)

/-! ### Chunker lemmas -/

/-- Master description of the chunk loop: given positive step and enough fuel,
the loop terminates and yields exactly the windows `toks.slice(i + j*step,
i + j*step + size)` for all `j` with `i + j*step < toks.length`. -/
theorem chunkLoop_master (toks : List Nat) (size step : Nat) (hstep : 0 < step) :
    ∀ fuel i, toks.length < i + fuel →
      ∃ ws, chunkLoop toks size step fuel i = some ws ∧
        (∀ j, j < ws.length ↔ i + j * step < toks.length) ∧
        (∀ j, (h : j < ws.length) → ws.get ⟨j, h⟩ = (toks.drop (i + j * step)).take size) := by
  intro fuel
  induction fuel with
  | zero =>
    intro i hi
    rw [chunkLoop, if_neg (by omega)]
    refine ⟨[], rfl, fun j => ?_, fun j h => absurd h (by simp)⟩
    simp only [List.length_nil]
    constructor
    · omega
    · intro hj
      have : i ≤ i + j * step := Nat.le_add_right _ _
      omega
  | succ f ih =>
    intro i hi
    rw [chunkLoop]
    by_cases hlt : i < toks.length
    · obtain ⟨ws', hws', hiff, hget⟩ := ih (i + step) (by omega)
      rw [if_pos hlt, hws']
      refine ⟨_, rfl, fun j => ?_, fun j h => ?_⟩
      · cases j with
        | zero => simpa using hlt
        | succ j =>
          have h1 := hiff j
          have h2 : (j + 1) * step = j * step + step := Nat.succ_mul j step
          simp only [List.length_cons, Nat.succ_lt_succ_iff, h1, h2]
          omega
      · cases j with
        | zero => simp
        | succ j =>
          have h2 : (j + 1) * step = j * step + step := Nat.succ_mul j step
          simp only [List.get_cons_succ, hget j]
          rw [h2]
          congr 2
          omega
    · rw [if_neg hlt]
      refine ⟨[], rfl, fun j => ?_, fun j h => absurd h (by simp)⟩
      simp only [List.length_nil]
      constructor
      · omega
      · intro hj
        have : i ≤ i + j * step := Nat.le_add_right _ _
        omega

/-- With step 0 (the unvalidated configurations `overlap ≥ 1` or `size ≤ 0`),
the loop never terminates: no amount of fuel produces a result. -/
theorem chunkLoop_step_zero (toks : List Nat) (size : Nat) :
    ∀ fuel i, i < toks.length → chunkLoop toks size 0 fuel i = none := by
  intro fuel
  induction fuel with
  | zero => intro i hi; rw [chunkLoop, if_pos hi]
  | succ f ih =>
    intro i hi
    rw [chunkLoop, if_pos hi]
    simp only [Nat.add_zero]
    rw [ih i hi]

/-- When the step is positive, the fuel `toks.length + 1` used by `splitTokens`
is sufficient. -/
theorem chunkLoop_total (toks : List Nat) (size step : Nat) (hstep : 0 < step) :
    ∃ ws, chunkLoop toks size step (toks.length + 1) 0 = some ws ∧
      (∀ j, j < ws.length ↔ j * step < toks.length) ∧
      (∀ j, (h : j < ws.length) → ws.get ⟨j, h⟩ = (toks.drop (j * step)).take size) := by
  obtain ⟨ws, h1, h2, h3⟩ := chunkLoop_master toks size step hstep (toks.length + 1) 0 (by omega)
  exact ⟨ws, h1, fun j => by simpa using h2 j, fun j h => by simpa using h3 j h⟩

/-- When the computed step is at least 1, `Int.toNat` in `stepOf` is faithful. -/
theorem stepOf_cast (size : Nat) (f : ℚ) (h : 1 ≤ stepOf size f) :
    (stepOf size f : ℤ) = ⌊(size : ℚ) * (1 - f)⌋ := by
  unfold stepOf at *
  rcases le_or_lt 0 (⌊(size : ℚ) * (1 - f)⌋) with h0 | h0
  · exact Int.toNat_of_nonneg h0
  · rw [Int.toNat_of_nonpos h0.le] at h; omega

/-- For a nonnegative overlap fraction, the step never exceeds the window size. -/
theorem stepOf_le_size (size : Nat) (f : ℚ) (hf : 0 ≤ f) : stepOf size f ≤ size := by
  unfold stepOf
  rw [Int.toNat_le]
  calc ⌊(size : ℚ) * (1 - f)⌋ ≤ ⌊(size : ℚ)⌋ := by
        apply Int.floor_mono
        have h0 : (0 : ℚ) ≤ (size : ℚ) := by positivity
        nlinarith
    _ = size := Int.floor_natCast size

/-- `S - ⌊S*(1-f)⌋ = ⌈S*f⌉`: the overlap of consecutive untruncated windows. -/
theorem size_sub_stepOf (size : Nat) (f : ℚ) (h : 1 ≤ stepOf size f) :
    (size : ℤ) - stepOf size f = ⌈(size : ℚ) * f⌉ := by
  rw [stepOf_cast size f h]
  have hrw : (size : ℚ) * (1 - f) = -((size : ℚ) * f) + ((size : ℤ) : ℚ) := by
    push_cast; ring
  rw [hrw, Int.floor_add_int, Int.floor_neg]
  ring

/-! ### Claims C2, C3, C6 -/

/-- Claim C2, as stated, is false: with `S = 10`, `f = 1/2` (step 5) and `N = 16`
tokens, the loop yields windows at offsets 0, 5, 10, 15; the last two windows
`[10..15]` and `[15]` share exactly 1 token, while `⌊S*f⌋ = 5`, so consecutive
windows do not overlap by `⌊S*f⌋` within ±1. -/
theorem chunkLoop_overlap_counterexample :
    stepOf 10 (1/2) = 5 ∧
    ⌊(10 : ℚ) * (1/2)⌋ = 5 ∧
    chunkLoop (List.range 16) 10 5 17 0 =
      some [[0,1,2,3,4,5,6,7,8,9], [5,6,7,8,9,10,11,12,13,14],
            [10,11,12,13,14,15], [15]] ∧
    ([10,11,12,13,14,15] : List Nat).inter [15] = [15] ∧
    ¬((5 : Int) - 1 ≤ 1) := by
  refine ⟨?_, ?_, by decide, by decide, by decide⟩
  · norm_num [stepOf]; decide
  · norm_num

/-- Claim C2 (amended): for `N > S`, nonnegative overlap fraction `f`, and a
positive step `⌊S*(1-f)⌋`, window `j` starts at offset `j*step` and spans up to
`S` tokens, windows exist exactly for the offsets below `N`, their ranges cover
`[0, N)`, and each pair of consecutive windows whose earlier window is not
truncated by the end of input overlaps in exactly `S - step = ⌈S*f⌉` tokens,
which is within +1 of `⌊S*f⌋`.  (As stated the claim is false: pairs whose
earlier window is truncated can overlap by less, see
`chunkLoop_overlap_counterexample`.) -/
theorem chunkLoop_window_geometry (toks : List Nat) (size : Nat) (f : ℚ)
    (hf : 0 ≤ f) (hstep : 1 ≤ stepOf size f) (hN : size < toks.length) :
    ∃ ws, chunkLoop toks size (stepOf size f) (toks.length + 1) 0 = some ws ∧
      (∀ tok txt, tok.encode txt = toks →
        splitTokens txt tok size f = some (ws.map tok.decode)) ∧
      (∀ j, j < ws.length ↔ j * stepOf size f < toks.length) ∧
      (∀ j, (h : j < ws.length) →
        ws.get ⟨j, h⟩ = (toks.drop (j * stepOf size f)).take size) ∧
      (∀ t, t < toks.length → ∃ j, j < ws.length ∧
        j * stepOf size f ≤ t ∧ t < j * stepOf size f + size) ∧
      (∀ j, j + 1 < ws.length → j * stepOf size f + size ≤ toks.length →
        min (j * stepOf size f + size) toks.length - (j + 1) * stepOf size f
          = size - stepOf size f) ∧
      (⌊(size : ℚ) * f⌋ ≤ (size : ℤ) - stepOf size f ∧
        (size : ℤ) - stepOf size f ≤ ⌊(size : ℚ) * f⌋ + 1) := by
  obtain ⟨ws, h1, h2, h3⟩ := chunkLoop_total toks size (stepOf size f) (by omega)
  have hle : stepOf size f ≤ size := stepOf_le_size size f hf
  refine ⟨ws, h1, ?_, h2, h3, ?_, ?_, ?_⟩
  · intro tok txt he
    simp only [splitTokens, he]
    rw [if_neg (by omega), h1]
    rfl
  · intro t ht
    have hs0 : 0 < stepOf size f := hstep
    have hdm : stepOf size f * (t / stepOf size f) + t % stepOf size f = t :=
      Nat.div_add_mod t _
    have hm : t % stepOf size f < stepOf size f := Nat.mod_lt t hs0
    have hcomm : t / stepOf size f * stepOf size f = stepOf size f * (t / stepOf size f) :=
      Nat.mul_comm _ _
    refine ⟨t / stepOf size f, ?_, ?_, ?_⟩
    · rw [h2]; omega
    · omega
    · omega
  · intro j hj1 hj2
    have hsm : (j + 1) * stepOf size f = j * stepOf size f + stepOf size f :=
      Nat.succ_mul j _
    omega
  · have hkey := size_sub_stepOf size f hstep
    rw [hkey]
    exact ⟨Int.floor_le_ceil _, Int.ceil_le_floor_add_one _⟩

/-- Witness for `chunkLoop_window_geometry`: 13 tokens, window size 5, overlap
1/5 (step 4). -/
theorem chunkLoop_window_geometry_witness :
    ∃ ws, chunkLoop (List.range 13) 5 (stepOf 5 (1/5)) ((List.range 13).length + 1) 0 = some ws ∧
      (∀ tok txt, tok.encode txt = List.range 13 →
        splitTokens txt tok 5 (1/5) = some (ws.map tok.decode)) ∧
      (∀ j, j < ws.length ↔ j * stepOf 5 (1/5) < (List.range 13).length) ∧
      (∀ j, (h : j < ws.length) →
        ws.get ⟨j, h⟩ = ((List.range 13).drop (j * stepOf 5 (1/5))).take 5) ∧
      (∀ t, t < (List.range 13).length → ∃ j, j < ws.length ∧
        j * stepOf 5 (1/5) ≤ t ∧ t < j * stepOf 5 (1/5) + 5) ∧
      (∀ j, j + 1 < ws.length → j * stepOf 5 (1/5) + 5 ≤ (List.range 13).length →
        min (j * stepOf 5 (1/5) + 5) (List.range 13).length - (j + 1) * stepOf 5 (1/5)
          = 5 - stepOf 5 (1/5)) ∧
      (⌊(5 : ℚ) * (1/5)⌋ ≤ (5 : ℤ) - stepOf 5 (1/5) ∧
        (5 : ℤ) - stepOf 5 (1/5) ≤ ⌊(5 : ℚ) * (1/5)⌋ + 1) :=
  chunkLoop_window_geometry (List.range 13) 5 (1/5) (by norm_num)
    (by norm_num [stepOf]) (by decide)

/-- Claim C3: when the token sequence fits in the window (`N ≤ S`), the chunker
yields exactly one window, the whole input text itself. -/
theorem splitTokens_single (txt : String) (tok : Tok) (size : Nat) (overlap : ℚ)
    (h : (tok.encode txt).length ≤ size) :
    splitTokens txt tok size overlap = some [txt] := by
  simp only [splitTokens]
  rw [if_pos h]

/-- Witness for `splitTokens_single`. -/
theorem splitTokens_single_witness :
    splitTokens ("hi") charTok 5 (1/10) = some ["hi"] :=
  splitTokens_single ("hi") charTok 5 (1/10) (by decide)

/-- Claim C6 is wrong about the code: nothing rejects step-0 configurations.
With `--overlap=1` (so step `⌊2*(1-1)⌋ = 0`) on a 3-token input, the source
loop `for (let i = 0; i < toks.length; i += step)` never advances `i` and runs
forever; in the model, no fuel makes `chunkLoop` return, and `splitTokens`
yields `none` (divergence). -/
theorem splitTokens_step_zero_diverges :
    stepOf 2 1 = 0 ∧
    (∀ fuel, chunkLoop (charTok.encode ("abc")) 2 (stepOf 2 1) fuel 0 = none) ∧
    splitTokens ("abc") charTok 2 1 = none := by
  have hs : stepOf 2 1 = 0 := by norm_num [stepOf]
  refine ⟨hs, ?_, ?_⟩
  · intro fuel
    rw [hs]
    exact chunkLoop_step_zero _ 2 fuel 0 (by decide)
  · simp only [splitTokens]
    rw [if_neg (by decide), hs]
    rw [chunkLoop_step_zero _ 2 _ 0 (by decide)]
    rfl

/-! ## The generation client (`ask`, lines 106–144)

```
async function ask(model, prompt, systemPrompt?, retries = 3) {
  let attempt = 0;
  let out = '';
  while (attempt < retries) {
    try {
      const stream = await ollama.generate({...});
      for await (const c of stream) { process.stdout.write(c.response); out += c.response; }
      return out.trim();
    } catch (error) {
      attempt++;
      if (attempt < retries) {
        await new Promise(resolve => setTimeout(resolve, attempt * 2000));
      } else { throw error; }
    }
  }
  return out.trim();
}
```

The external service is modelled by an oracle mapping the attempt index to the
text streamed during that attempt together with whether the attempt completed
(`false` = the stream threw; the text streamed before the throw stays in `out`,
since `out` is declared outside the `while` loop).  The model records the
result, the number of attempts made, and the list of back-off delays in ms. -/

structure AskResult where
  result : Except Unit String
  attempts : Nat
  delays : List Nat

/-- The `while (attempt < retries)` loop of `ask`; `remaining` is
`retries - attempt`, so the recursion is structural. -/
def askLoop (oracle : Nat → String × Bool) : Nat → Nat → String → AskResult
  | 0, _, out => ⟨Except.ok (jsTrim out), 0, []⟩
  | r + 1, attempt, out =>
    let s := oracle attempt
    let out2 := out ++ s.1
    if s.2 then ⟨Except.ok (jsTrim out2), 1, []⟩
    else if r = 0 then ⟨Except.error (), 1, []⟩
    else
      let res := askLoop oracle r (attempt + 1) out2
      ⟨res.result, res.attempts + 1, (attempt + 1) * 2000 :: res.delays⟩

/-- `ask` (the source default is `retries = 3`). -/
def askModel (oracle : Nat → String × Bool) (retries : Nat) : AskResult :=
  askLoop oracle retries 0 ("")

/-- The concatenation of everything streamed during attempts `a, …, a + j`. -/
def streamedUpTo (oracle : Nat → String × Bool) : Nat → Nat → String
  | a, 0 => (oracle a).1
  | a, j + 1 => (oracle a).1 ++ streamedUpTo oracle (a + 1) j

theorem askLoop_attempts_le (oracle : Nat → String × Bool) :
    ∀ r attempt out, (askLoop oracle r attempt out).attempts ≤ r := by
  intro r
  induction r with
  | zero => intro attempt out; rfl
  | succ r ih =>
    intro attempt out
    rw [askLoop]
    cases h1 : (oracle attempt).2 with
    | true => simp [h1]
    | false =>
      by_cases h2 : r = 0
      · simp [h1, h2]
      · simp only [h1, Bool.false_eq_true, if_false, h2]
        have hle := ih (attempt + 1) (out ++ (oracle attempt).1)
        omega

theorem askLoop_attempts_pos (oracle : Nat → String × Bool) (r attempt : Nat) (out : String)
    (hr : 0 < r) : 0 < (askLoop oracle r attempt out).attempts := by
  cases r with
  | zero => omega
  | succ r =>
    rw [askLoop]
    by_cases h1 : (oracle attempt).2
    · simp [h1]
    · simp only [h1]
      by_cases h2 : r = 0
      · simp [h2]
      · simp [h2]

theorem askLoop_delays (oracle : Nat → String × Bool) :
    ∀ r attempt out, (askLoop oracle r attempt out).delays =
      (List.range ((askLoop oracle r attempt out).attempts - 1)).map
        (fun k => (attempt + 1 + k) * 2000) := by
  intro r
  induction r with
  | zero => intro attempt out; rfl
  | succ r ih =>
    intro attempt out
    rw [askLoop]
    by_cases h1 : (oracle attempt).2
    · simp [h1]
    · simp only [h1, Bool.false_eq_true, if_false]
      by_cases h2 : r = 0
      · simp [h2]
      · simp only [h2, if_false]
        have hpos := askLoop_attempts_pos oracle r (attempt + 1)
          (out ++ (oracle attempt).1) (Nat.pos_of_ne_zero h2)
        rw [ih (attempt + 1) (out ++ (oracle attempt).1)]
        have hn : (askLoop oracle r (attempt + 1) (out ++ (oracle attempt).1)).attempts - 1 + 1 =
            (askLoop oracle r (attempt + 1) (out ++ (oracle attempt).1)).attempts :=
          Nat.succ_pred_eq_of_pos hpos
        rw [Nat.add_sub_cancel, ← hn, List.range_succ_eq_map]
        simp only [List.map_cons, List.map_map, List.cons.injEq, true_and]
        apply List.map_congr_left
        intro k _
        simp only [Function.comp_apply]
        omega

theorem askLoop_all_fail (oracle : Nat → String × Bool) :
    ∀ r attempt out, 0 < r → (∀ i, i < r → (oracle (attempt + i)).2 = false) →
      (askLoop oracle r attempt out).result = Except.error () := by
  intro r
  induction r with
  | zero => omega
  | succ r ih =>
    intro attempt out _ hfail
    rw [askLoop]
    have h0 : (oracle attempt).2 = false := by simpa using hfail 0 (by omega)
    simp only [h0, Bool.false_eq_true, if_false]
    by_cases h2 : r = 0
    · simp [h2]
    · simp only [h2, if_false]
      apply ih (attempt + 1) (out ++ (oracle attempt).1) (by omega)
      intro i hi
      have harg : attempt + 1 + i = attempt + (i + 1) := by omega
      rw [harg]
      exact hfail (i + 1) (by omega)

theorem askLoop_first_success (oracle : Nat → String × Bool) :
    ∀ j r attempt out, j < r → (∀ i, i < j → (oracle (attempt + i)).2 = false) →
      (oracle (attempt + j)).2 = true →
      askLoop oracle r attempt out =
        ⟨Except.ok (jsTrim (out ++ streamedUpTo oracle attempt j)), j + 1,
          (List.range j).map (fun k => (attempt + 1 + k) * 2000)⟩ := by
  intro j
  induction j with
  | zero =>
    intro r attempt out hr _ hok
    cases r with
    | zero => omega
    | succ r =>
      rw [askLoop]
      simp only [Nat.add_zero] at hok
      simp [hok, streamedUpTo]
  | succ j ih =>
    intro r attempt out hr hfail hok
    cases r with
    | zero => omega
    | succ r =>
      rw [askLoop]
      have h0 : (oracle attempt).2 = false := by simpa using hfail 0 (by omega)
      simp only [h0, Bool.false_eq_true, if_false]
      have hr0 : r ≠ 0 := by omega
      simp only [hr0, if_false]
      have hfail2 : ∀ i, i < j → (oracle (attempt + 1 + i)).2 = false := by
        intro i hi
        have harg : attempt + 1 + i = attempt + (i + 1) := by omega
        rw [harg]
        exact hfail (i + 1) (by omega)
      have hok2 : (oracle (attempt + 1 + j)).2 = true := by
        have harg : attempt + 1 + j = attempt + (j + 1) := by omega
        rw [harg]
        exact hok
      rw [ih r (attempt + 1) (out ++ (oracle attempt).1) (by omega) hfail2 hok2]
      have e1 : (out ++ (oracle attempt).1) ++ streamedUpTo oracle (attempt + 1) j
          = out ++ ((oracle attempt).1 ++ streamedUpTo oracle (attempt + 1) j) :=
        String.append_assoc _ _ _
      have e2 : (List.range (j + 1)).map (fun k => (attempt + 1 + k) * 2000)
          = (attempt + 1) * 2000 ::
            (List.range j).map (fun k => (attempt + 1 + 1 + k) * 2000) := by
        rw [List.range_succ_eq_map]
        simp only [List.map_cons, List.map_map, List.cons.injEq, true_and]
        apply List.map_congr_left
        intro k _
        simp only [Function.comp_apply]
        omega
      simp only [streamedUpTo, e2]
      rw [e1]

theorem empty_append_str (s : String) : "" ++ s = s := by
  obtain ⟨d⟩ := s
  rfl

/-! ### Claim C4 -/

/-- Claim C4 (amended): the client makes at most `retries` attempts in total
(so at most `retries - 1` retries after the first attempt); the delay before
the `k`-th retry is `k * 2000` ms (linear back-off, attempt index times the
fixed 2-second base); if all `retries` attempts fail the error propagates to
the caller; and on the first successful attempt the concatenation of all text
streamed so far — which includes any partial output of earlier failed attempts,
since `out` lives outside the retry loop — is returned trimmed.  When the very
first attempt succeeds this is exactly the full stream text, trimmed.  (As
stated the claim is false: a mid-stream failure leaks its partial output into
the returned text, see `ask_output_counterexample`.) -/
theorem ask_retry_behaviour (oracle : Nat → String × Bool) (retries : Nat) :
    (askModel oracle retries).attempts ≤ retries ∧
    (askModel oracle retries).delays =
      (List.range ((askModel oracle retries).attempts - 1)).map
        (fun k => (k + 1) * 2000) ∧
    (0 < retries → (∀ i, i < retries → (oracle i).2 = false) →
      (askModel oracle retries).result = Except.error ()) ∧
    (∀ j, j < retries → (∀ i, i < j → (oracle i).2 = false) → (oracle j).2 = true →
      (askModel oracle retries).result = Except.ok (jsTrim (streamedUpTo oracle 0 j)) ∧
      (askModel oracle retries).attempts = j + 1) := by
  refine ⟨askLoop_attempts_le oracle retries 0 (""), ?_, ?_, ?_⟩
  · have h := askLoop_delays oracle retries 0 ("")
    rw [askModel, h]
    apply List.map_congr_left
    intro k _
    omega
  · intro hr hfail
    apply askLoop_all_fail oracle retries 0 ("") hr
    intro i hi
    simpa using hfail i hi
  · intro j hj hfail hok
    have h := askLoop_first_success oracle j retries 0 ("") hj
      (fun i hi => by simpa using hfail i hi) (by simpa using hok)
    rw [askModel, h]
    refine ⟨?_, rfl⟩
    dsimp only
    rw [empty_append_str]

/-- The failure pattern refuting the claim's "full concatenated stream text":
attempt 0 streams `"Oops "` and then throws, attempt 1 streams `"Result"` and
completes. -/
def askOracleCx : Nat → String × Bool :=
  fun n => if n = 0 then ("Oops ", false) else ("Result", true)

/-- Claim C4, as stated, is false: because `out` is declared outside the retry
loop, text streamed by a failed attempt is not discarded.  With the default
`retries = 3` and an attempt that streams `"Oops "` before throwing, the
returned text is `"Oops Result"`, not the successful stream's full text
`"Result"`. -/
theorem ask_output_counterexample :
    (askModel askOracleCx 3).result = Except.ok ("Oops Result") ∧
    "Oops Result" ≠ "Result" := by
  constructor
  · rfl
  · decide

/-- Witness for `ask_retry_behaviour`: a failing then a succeeding attempt. -/
theorem ask_retry_behaviour_witness :
    (askModel askOracleCx 3).attempts ≤ 3 ∧
    (askModel askOracleCx 3).result = Except.ok (jsTrim (streamedUpTo askOracleCx 0 1)) ∧
    (askModel askOracleCx 3).attempts = 1 + 1 := by
  have h := ask_retry_behaviour askOracleCx 3
  have h4 := h.2.2.2 1 (by decide) (by decide) (by decide)
  exact ⟨h.1, h4.1, h4.2⟩

/-! ## The plain-text formatter (`formatOutput`, lines 174–183)

```
if (format === 'plain') {
  return minutes
    .replace(/#{1,6} /g, '')
    .replace(/\*\*/g, '')
    .replace(/\*/g, '')
    .replace(/</g, '&lt;')
    .replace(/>/g, '&gt;');
}
```
-/

/-- Global replacement of `/#{1,6} /` by the empty string, as a left-to-right
scan.  A match at a position requires a run of `k ≤ 6` hashes followed by a
space (for `k > 6` the leftmost match starts inside the run, leaving the first
`k - 6` hashes).  `pending` counts hashes seen but not yet emitted. -/
def stripHeadsAux : Nat → List Char → List Char
  | pending, [] => List.replicate pending '#'
  | pending, c :: cs =>
    if c = '#' then stripHeadsAux (pending + 1) cs
    else if c = ' ' ∧ 1 ≤ pending then
      List.replicate (pending - 6) '#' ++ stripHeadsAux 0 cs
    else
      List.replicate pending '#' ++ (c :: stripHeadsAux 0 cs)

/-- Global replacement of a two-character pattern `cc` by the empty string
(`.replace(/\*\*/g, '')`), scanning left to right. -/
def removeDouble (c : Char) : List Char → List Char
  | [] => []
  | [x] => [x]
  | x :: y :: rest =>
    if x = c ∧ y = c then removeDouble c rest
    else x :: removeDouble c (y :: rest)

/-- Global replacement of a single character by the empty string
(`.replace(/\*/g, '')`). -/
def removeChar (c : Char) : List Char → List Char
  | [] => []
  | x :: xs => if x = c then removeChar c xs else x :: removeChar c xs

/-- Global replacement of a single character by a string
(`.replace(/</g, '&lt;')` and `.replace(/>/g, '&gt;')`). -/
def escapeChar (c : Char) (repl : List Char) (cs : List Char) : List Char :=
  cs.flatMap (fun x => if x = c then repl else [x])

/-- The `plain` branch of `formatOutput`: the five `.replace` calls in source
order. -/
def formatPlain (minutes : String) : String :=
  String.mk (escapeChar '>' ("&gt;".toList)
    (escapeChar '<' ("&lt;".toList)
      (removeChar '*'
        (removeDouble '*'
          (stripHeadsAux 0 minutes.toList)))))

/-- Whether the text contains a `'#'` immediately followed by a space — the
exact condition for `/#{1,6} /` to have a match. -/
def hasHashSpace : List Char → Bool
  | [] => false
  | [_] => false
  | a :: b :: rest => (a = '#' && b = ' ') || hasHashSpace (b :: rest)

theorem hasHashSpace_tail {a : Char} {cs : List Char}
    (h : hasHashSpace (a :: cs) = false) : hasHashSpace cs = false := by
  cases cs with
  | nil => rfl
  | cons b rest =>
    rw [hasHashSpace] at h
    simpa using (Bool.or_eq_false_iff.mp h).2

theorem stripHeadsAux_id : ∀ (cs : List Char), hasHashSpace cs = false →
    ∀ p, (p = 0 ∨ cs.head? ≠ some ' ') →
    stripHeadsAux p cs = List.replicate p '#' ++ cs := by
  intro cs
  induction cs with
  | nil => intro _ p _; rw [stripHeadsAux, List.append_nil]
  | cons c cs ih =>
    intro h p hp
    have htail : hasHashSpace cs = false := hasHashSpace_tail h
    rw [stripHeadsAux]
    by_cases hc : c = '#'
    · subst hc
      have hhead : cs.head? ≠ some ' ' := by
        intro hs
        cases cs with
        | nil => simp at hs
        | cons b rest =>
          simp only [List.head?_cons, Option.some.injEq] at hs
          rw [hasHashSpace, hs] at h
          simp at h
      rw [if_pos rfl, ih htail (p + 1) (Or.inr hhead)]
      rw [List.replicate_succ' p '#']
      simp
    · rw [if_neg hc]
      have hrec := ih htail 0 (Or.inl rfl)
      by_cases hsp : c = ' ' ∧ 1 ≤ p
      · exfalso
        rcases hp with hp0 | hph
        · omega
        · exact hph (by rw [hsp.1]; rfl)
      · rw [if_neg hsp, hrec]
        simp

theorem removeDouble_id (c : Char) : ∀ cs, c ∉ cs → removeDouble c cs = cs
  | [], _ => rfl
  | [x], _ => rfl
  | x :: y :: rest, h => by
    rw [removeDouble, if_neg (by rintro ⟨rfl, -⟩; exact h (List.mem_cons_self _ _))]
    congr 1
    exact removeDouble_id c (y :: rest) (fun m => h (List.mem_cons_of_mem _ m))

theorem removeChar_id (c : Char) : ∀ cs, c ∉ cs → removeChar c cs = cs
  | [], _ => rfl
  | x :: xs, h => by
    rw [removeChar, if_neg (by rintro rfl; exact h (List.mem_cons_self _ _))]
    congr 1
    exact removeChar_id c xs (fun m => h (List.mem_cons_of_mem _ m))

theorem escapeChar_id (c : Char) (repl : List Char) :
    ∀ cs, c ∉ cs → escapeChar c repl cs = cs := by
  intro cs
  induction cs with
  | nil => intro _; rfl
  | cons x xs ih =>
    intro h
    have hx : ¬(x = c) := by rintro rfl; exact h (List.mem_cons_self _ _)
    simp only [escapeChar, List.flatMap_cons, hx, if_false]
    have := ih (fun m => h (List.mem_cons_of_mem _ m))
    simp only [escapeChar] at this
    simp [this]

theorem mk_toList (s : String) : String.mk s.toList = s := by
  obtain ⟨d⟩ := s
  rfl

/-! ### Claim C8 -/

/-- Claim C8, as stated, is false: the plain formatter also escapes angle
brackets, so a text with no markdown heading or emphasis markers is still
changed when it contains `<` (or `>`).  `"a<b"` has no `'#'`-plus-space and no
`'*'`, yet formatting it yields `"a&lt;b"`. -/
theorem formatPlain_counterexample :
    hasHashSpace ("a<b").toList = false ∧
    '*' ∉ ("a<b").toList ∧
    formatPlain ("a<b") = "a&lt;b" ∧
    formatPlain ("a<b") ≠ "a<b" := by
  refine ⟨by decide, by decide, by decide, by decide⟩

/-- Claim C8 (amended): the plain formatter is the identity on every text that
contains no heading marker (no `'#'` immediately followed by a space), no
emphasis marker (`'*'`), and additionally no angle bracket (`'<'`/`'>'`, which
the formatter escapes).  In particular it is idempotent on such texts, with no
double-stripping artifacts. -/
theorem formatPlain_id_on_plain (s : String)
    (h1 : hasHashSpace s.toList = false)
    (h2 : '*' ∉ s.toList)
    (h3 : '<' ∉ s.toList)
    (h4 : '>' ∉ s.toList) :
    formatPlain s = s := by
  unfold formatPlain
  rw [stripHeadsAux_id s.toList h1 0 (Or.inl rfl)]
  simp only [List.replicate, List.nil_append]
  rw [removeDouble_id '*' _ h2, removeChar_id '*' _ h2,
    escapeChar_id '<' _ _ h3, escapeChar_id '>' _ _ h4]
  exact mk_toList s

/-- Witness for `formatPlain_id_on_plain`. -/
theorem formatPlain_id_on_plain_witness :
    formatPlain ("Alice: We decided to ship Friday.") = "Alice: We decided to ship Friday." :=
  formatPlain_id_on_plain ("Alice: We decided to ship Friday.")
    (by decide) (by decide) (by decide) (by decide)

/-! ## The JSON formatter (`formatOutput`, lines 185–244)

The `json` branch extracts sections with five case-insensitive regexes of the
shape `/#{1,3} LABEL\s+([\s\S]*?)(?=#{1,3} WORD|$)/i`, splits each section on
`/\n[•*-]\s+/`, parses action items with `/^([A-Z][A-Za-z\s]+?)[:•]/` and a
date pattern, and serialises the collected object with
`JSON.stringify(sections, null, 2)`, falling back to the raw markdown if the
`try` block throws.

Embedding notes on regex semantics, justifying the deterministic scanners:
* `#{1,3}` greedy before a literal space: at a given position only the full
  hash run (of length ≤ 3) can be followed by the space, since any shorter
  prefix is followed by another `'#'`.
* the lazy groups `([A-Z][A-Za-z\s]+?)` / name classes are followed by a
  delimiter character that is not in the class, so only the full class run can
  precede the delimiter, making lazy matching deterministic.
* `([\s\S]*?)(?=#{1,3} WORD|$)` after a greedy `\s+`: the group runs from the
  end of the whitespace run to the first position where the look-ahead matches
  (or the end of the string, where `$` always matches).
-/

/-- Match the `label` case-insensitively as a prefix, returning the rest. -/
def stripCI : List Char → List Char → Option (List Char)
  | [], t => some t
  | _ :: _, [] => none
  | p :: ps, t :: ts => if ciEq p t then stripCI ps ts else none

/-- Anchored match of `#{1,3} LABEL` (case-insensitive) at the head of `cs`,
returning the rest after the label. -/
def headingHere (label : List Char) (cs : List Char) : Option (List Char) :=
  let k := (cs.takeWhile (fun c => c = '#')).length
  if 1 ≤ k ∧ k ≤ 3 then
    match cs.drop k with
    | ' ' :: r => stripCI label r
    | _ => none
  else none

/-- The lazy group `([\s\S]*?)(?=#{1,3} WORD|$)`: everything up to the first
position where the boundary heading matches, or to the end of the string. -/
def contentUntil (word : List Char) : List Char → List Char
  | [] => []
  | c :: rest =>
    if (headingHere word (c :: rest)).isSome then []
    else c :: contentUntil word rest

/-- Anchored match of one section regex: `#{1,3} LABEL`, then the greedy `\s+`
(at least one whitespace character), then the captured group; `boundary = none`
models the participants regex, whose look-ahead is `(?=$)` alone. -/
def sectionHere (label : List Char) (boundary : Option (List Char))
    (cs : List Char) : Option (List Char) :=
  match headingHere label cs with
  | none => none
  | some r =>
    let w := r.takeWhile isJsSpace
    if w = [] then none
    else
      let body := r.drop w.length
      some (match boundary with
        | some word => contentUntil word body
        | none => body)

/-- `minutes.match(regex)`: the leftmost match, scanning position by position. -/
def sectionScan (label : List Char) (boundary : Option (List Char)) :
    List Char → Option (List Char)
  | [] => none
  | c :: rest =>
    match sectionHere label boundary (c :: rest) with
    | some content => some content
    | none => sectionScan label boundary rest

/-- The bullet class `[•*-]` of the item separator. -/
def bulletChar (c : Char) : Bool := c = '•' || c = '*' || c = '-'

def consHead (c : Char) : List (List Char) → List (List Char)
  | [] => [[c]]
  | p :: ps => (c :: p) :: ps

/-- `content.split(/\n[•*-]\s+/)`: split at each leftmost non-overlapping
match; the greedy `\s+` absorbs the whole whitespace run after the bullet.
`fuel` bounds the scan (each step consumes at least one character, so
`length + 1` always suffices, see `splitBulletPieces`). -/
def splitBullets : Nat → List Char → List (List Char)
  | 0, cs => [cs]
  | _ + 1, [] => [[]]
  | f + 1, '\n' :: b :: w :: rest =>
    if bulletChar b && isJsSpace w then
      [] :: splitBullets f (rest.dropWhile isJsSpace)
    else consHead '\n' (splitBullets f (b :: w :: rest))
  | f + 1, c :: cs => consHead c (splitBullets f cs)

def splitBulletPieces (cs : List Char) : List (List Char) :=
  splitBullets (cs.length + 1) cs

/-- `.split(/\n[•*-]\s+/).filter(Boolean).map(item => item.trim())`. -/
def bulletItems (content : List Char) : List String :=
  ((splitBulletPieces content).filter (fun p => p ≠ [])).map
    (fun p => String.mk (jsTrimL p))

/-- The class `[A-Za-z\s]` of the owner-name regex. -/
def ownerClass (c : Char) : Bool := isAsciiLetter c || isJsSpace c

/-- Anchored `/^([A-Z][A-Za-z\s]+?)[:•]/`: the captured owner name.  The
delimiters `':'`/`'•'` are not in the class, so the lazy quantifier matches
exactly the full class run. -/
def ownerMatch (item : List Char) : Option (List Char) :=
  match item with
  | [] => none
  | c0 :: rest =>
    if isAsciiUpper c0 then
      let w := rest.takeWhile ownerClass
      if w = [] then none
      else
        match rest.drop w.length with
        | d :: _ => if d = ':' ∨ d = '•' then some (c0 :: w) else none
        | [] => none
    else none

/-- `item.replace(/^([A-Z][A-Za-z\s]+?)[:•]/, '')`: drop the matched owner
prefix, delimiter included, when the anchored regex matches. -/
def stripOwner (item : List Char) : List Char :=
  match ownerMatch item with
  | some nm => item.drop (nm.length + 1)
  | none => item

/-- The optional ordinal suffix `(?:st|nd|rd|th)?` (case-insensitive). -/
def ordSuffix (cs : List Char) : List Char :=
  match cs with
  | a :: b :: _ =>
    if (toLowerAscii a = 's' ∧ toLowerAscii b = 't') ∨
       (toLowerAscii a = 'n' ∧ toLowerAscii b = 'd') ∨
       (toLowerAscii a = 'r' ∧ toLowerAscii b = 'd') ∨
       (toLowerAscii a = 't' ∧ toLowerAscii b = 'h') then [a, b] else []
  | _ => []

/-- The optional year suffix `(?:,\s+\d{4})?`. -/
def yearSuffix (cs : List Char) : List Char :=
  match cs with
  | ',' :: r =>
    let w := r.takeWhile isJsSpace
    if w = [] then []
    else
      let ds := (r.drop w.length).takeWhile isAsciiDigit
      if 4 ≤ ds.length then ',' :: (w ++ ds.take 4) else []
  | _ => []

/-- First alternative of the deadline regex, anchored:
`by\s+([A-Za-z]+\s+\d{1,2}(?:st|nd|rd|th)?(?:,\s+\d{4})?)` (case-insensitive);
returns capture group 1 (which starts after `by\s+`). -/
def deadlineAlt1 (cs : List Char) : Option (List Char) :=
  match cs with
  | b :: y :: rest =>
    if toLowerAscii b = 'b' ∧ toLowerAscii y = 'y' then
      let w1 := rest.takeWhile isJsSpace
      if w1 = [] then none
      else
        let r1 := rest.drop w1.length
        let letters := r1.takeWhile isAsciiLetter
        if letters = [] then none
        else
          let r2 := r1.drop letters.length
          let w2 := r2.takeWhile isJsSpace
          if w2 = [] then none
          else
            let r3 := r2.drop w2.length
            let digs := r3.takeWhile isAsciiDigit
            if digs = [] then none
            else
              let d2 := digs.take 2
              let r4 := r3.drop d2.length
              let suf := ordSuffix r4
              let yr := yearSuffix (r4.drop suf.length)
              some (letters ++ w2 ++ d2 ++ suf ++ yr)
    else none
  | _ => none

/-- The optional trailing `(?:\/\d{2,4})?` of the second alternative. -/
def slashYear (cs : List Char) : List Char :=
  match cs with
  | '/' :: rr =>
    let ds := rr.takeWhile isAsciiDigit
    if 2 ≤ ds.length then '/' :: ds.take 4 else []
  | _ => []

/-- Second alternative of the deadline regex, anchored:
`(\d{1,2}\/\d{1,2}(?:\/\d{2,4})?)`; capture group 2.  A digit run longer than 2
cannot be followed by `'/'` after backtracking, hence the length guard. -/
def deadlineAlt2 (cs : List Char) : Option (List Char) :=
  let d1 := cs.takeWhile isAsciiDigit
  if d1 = [] ∨ 2 < d1.length then none
  else
    match cs.drop d1.length with
    | '/' :: r =>
      let d2 := r.takeWhile isAsciiDigit
      if d2 = [] then none
      else
        let t2 := d2.take 2
        some (d1 ++ '/' :: (t2 ++ slashYear (r.drop t2.length)))
    | _ => none

/-- `item.match(deadlineRegex)` followed by `m[1] || m[2]`: the leftmost match,
preferring alternative 1 at each position. -/
def deadlineFind : List Char → Option (List Char)
  | [] => none
  | c :: rest =>
    match deadlineAlt1 (c :: rest) with
    | some g => some g
    | none =>
      match deadlineAlt2 (c :: rest) with
      | some g => some g
      | none => deadlineFind rest

/-- One parsed entry of `sections.actionItems`. -/
structure ActionItem where
  owner : String
  task : String
  deadline : Option String

/-- The `.map(item => {...})` body for action items (lines 212–221). -/
def parseActionItem (item : List Char) : ActionItem :=
  ⟨(match ownerMatch item with
    | some nm => String.mk (jsTrimL nm)
    | none => "Unassigned"),
   String.mk (jsTrimL (stripOwner item)),
   (deadlineFind item).map String.mk⟩

/-- The `sections` record: a field is `none` exactly when its regex did not
match (the key is then absent from the serialised object). -/
structure Sections where
  summary : Option String
  keyDecisions : Option (List String)
  actionItems : Option (List ActionItem)
  openQuestions : Option (List String)
  participants : Option (List String)

/-- Lines 192–236: run the five section regexes and post-process each match. -/
def extractSections (minutes : String) : Sections :=
  let cs := minutes.toList
  let summaryM := sectionScan (("SUMMARY").toList) (some (("KEY").toList)) cs
  let decisionsM := sectionScan (("KEY DECISIONS").toList) (some (("ACTION").toList)) cs
  let actionsM := sectionScan (("ACTION ITEMS").toList) (some (("OPEN").toList)) cs
  let questionsM := sectionScan (("OPEN QUESTIONS").toList) (some (("PARTICIPANTS").toList)) cs
  let participantsM := sectionScan (("PARTICIPANTS").toList) none cs
  ⟨summaryM.map (fun c => String.mk (jsTrimL c)),
   decisionsM.map bulletItems,
   actionsM.map (fun c =>
     ((splitBulletPieces c).filter (fun p => p ≠ [])).map parseActionItem),
   questionsM.map bulletItems,
   participantsM.map bulletItems⟩

/-- A lowercase hex digit, for `JSON.stringify`'s `\u00XX` escapes. -/
def hexDigitChar (n : Nat) : Char :=
  if n < 10 then Char.ofNat ('0'.toNat + n) else Char.ofNat ('a'.toNat + n - 10)

/-- `JSON.stringify` string-character escaping. -/
def jsonEscapeChar (c : Char) : List Char :=
  if c = '"' then ['\\', '"']
  else if c = '\\' then ['\\', '\\']
  else if c = '\u0008' then ['\\', 'b']
  else if c = '\t' then ['\\', 't']
  else if c = '\n' then ['\\', 'n']
  else if c = '\u000c' then ['\\', 'f']
  else if c = '\r' then ['\\', 'r']
  else if c.toNat < 32 then
    ['\\', 'u', '0', '0', hexDigitChar (c.toNat / 16), hexDigitChar (c.toNat % 16)]
  else [c]

/-- A serialised JSON string literal. -/
def jsonStr (s : String) : String :=
  "\"" ++ String.mk (s.toList.flatMap jsonEscapeChar) ++ "\""

/-- `JSON.stringify` of a string array nested at depth 1, indent 2. -/
def strArrayJson (items : List String) : String :=
  if items.isEmpty then "[]"
  else "[\n" ++ String.intercalate (",\n")
    (items.map (fun v => "    " ++ jsonStr v)) ++ "\n  ]"

/-- `JSON.stringify` of one action-item object nested at depth 2, indent 2
(key order `owner`, `task`, `deadline`; a null deadline is serialised). -/
def actionItemJson (a : ActionItem) : String :=
  "    \x7b\n      \"owner\": " ++ jsonStr a.owner ++
  ",\n      \"task\": " ++ jsonStr a.task ++
  ",\n      \"deadline\": " ++
    (match a.deadline with | some d => jsonStr d | none => "null") ++
  "\n    \x7d"

/-- `JSON.stringify` of the action-item array nested at depth 1, indent 2. -/
def actionArrayJson (items : List ActionItem) : String :=
  if items.isEmpty then "[]"
  else "[\n" ++ String.intercalate (",\n") (items.map actionItemJson) ++ "\n  ]"

/-- `JSON.stringify(sections, null, 2)`: keys in insertion order, each present
only when the corresponding section matched; the empty object serialises to
`"\x7b\x7d"` (open and close brace). -/
def serializeSections (s : Sections) : String :=
  let e1 := match s.summary with
    | some v => ["  \"summary\": " ++ jsonStr v]
    | none => []
  let e2 := match s.keyDecisions with
    | some v => ["  \"keyDecisions\": " ++ strArrayJson v]
    | none => []
  let e3 := match s.actionItems with
    | some v => ["  \"actionItems\": " ++ actionArrayJson v]
    | none => []
  let e4 := match s.openQuestions with
    | some v => ["  \"openQuestions\": " ++ strArrayJson v]
    | none => []
  let e5 := match s.participants with
    | some v => ["  \"participants\": " ++ strArrayJson v]
    | none => []
  let entries := e1 ++ e2 ++ e3 ++ e4 ++ e5
  if entries.isEmpty then "\x7b\x7d"
  else "\x7b\n" ++ String.intercalate (",\n") entries ++ "\n\x7d"

/-- The body of the `try` block of the `json` branch.  Every operation it
performs (regex matching, splitting, `JSON.stringify` on this record shape) is
total in JavaScript, so the embedded computation always returns `Except.ok`;
an `Except.error` would correspond to a thrown exception. -/
def formatJsonResult (m : String) : Except String String :=
  Except.ok (serializeSections (extractSections m))

/-- `--format=markdown|plain|json`. -/
inductive OutFormat where
  | markdown
  | plain
  | json

/-- `formatOutput(minutes, format)` (lines 174–248): `plain` strips markdown,
`json` runs the `try`/`catch` extraction — returning `minutes` unchanged if the
body throws — and `markdown` passes through. -/
def formatOutput (minutes : String) (format : OutFormat) : String :=
  match format with
  | OutFormat.plain => formatPlain minutes
  | OutFormat.json =>
    match formatJsonResult minutes with
    | Except.ok s => s
    | Except.error _ => minutes
  | OutFormat.markdown => minutes

/-! ### Claims C7 and C10 -/

/-- Claim C7: the JSON formatter never throws.  Every operation in the `try`
body (`String.prototype.match`/`split`/`replace` on fixed valid regexes,
`filter`, `map`, `trim`, and `JSON.stringify` of this plain record) is total,
which the embedding reflects: the body always produces `Except.ok`, never
`Except.error` (a thrown exception), so the `catch` clause — which returns the
original markdown unchanged and does not surface an error to the user — is
never even reached, and `formatOutput` in json mode always returns the
serialised sections. -/
theorem formatJson_never_throws (m : String) :
    (∃ r, formatJsonResult m = Except.ok r ∧ formatOutput m OutFormat.json = r) ∧
    (∀ e, formatJsonResult m ≠ Except.error e) := by
  refine ⟨⟨serializeSections (extractSections m), rfl, rfl⟩, ?_⟩
  intro e h
  simp [formatJsonResult] at h

/-- Claim C10: when none of the five section regexes matches, every key is
absent from `sections`, and `JSON.stringify({}, null, 2)` — the string of an
open and a close brace — is returned, not the original text: absence of all
headings is not a parse failure and does not trigger the markdown fallback. -/
theorem formatJson_no_headings (m : String)
    (h1 : sectionScan (("SUMMARY").toList) (some (("KEY").toList)) m.toList = none)
    (h2 : sectionScan (("KEY DECISIONS").toList) (some (("ACTION").toList)) m.toList = none)
    (h3 : sectionScan (("ACTION ITEMS").toList) (some (("OPEN").toList)) m.toList = none)
    (h4 : sectionScan (("OPEN QUESTIONS").toList) (some (("PARTICIPANTS").toList)) m.toList = none)
    (h5 : sectionScan (("PARTICIPANTS").toList) none m.toList = none) :
    formatOutput m OutFormat.json = "\x7b\x7d" := by
  simp only [formatOutput, formatJsonResult, extractSections, h1, h2, h3, h4, h5]
  rfl

/-- Witness for `formatJson_no_headings`: a text with no section headings maps
to the empty JSON object, which differs from the input text. -/
theorem formatJson_no_headings_witness :
    formatOutput ("hello world") OutFormat.json = "\x7b\x7d" :=
  formatJson_no_headings ("hello world")
    (by decide) (by decide) (by decide) (by decide) (by decide)

/-! ## Transcript preprocessing (`extractSpeaker` / `preprocessTranscript`,
lines 261–297)

`extractSpeaker` tries four anchored patterns in order —
`/^([A-Z][A-Za-z\s.-]+?):\s/`, `/^\[([A-Z][A-Za-z\s.-]+?)\]\s/`,
`/^\(([A-Z][A-Za-z\s.-]+?)\)\s/`, `/^<([A-Z][A-Za-z\s.-]+?)>\s/` — and returns
the first captured name.  The closing delimiters are not in the name class, so
the lazy quantifier deterministically captures the full class run.
`preprocessTranscript` collects the speakers of all lines into an
insertion-ordered set and, when nonempty, prepends a `PARTICIPANTS:` line. -/

/-- `text.split('\n')`. -/
def splitLines : List Char → List (List Char)
  | [] => [[]]
  | '\n' :: rest => [] :: splitLines rest
  | c :: rest => consHead c (splitLines rest)

/-- The name class `[A-Za-z\s.-]`. -/
def nameClass (c : Char) : Bool :=
  isAsciiLetter c || isJsSpace c || c = '.' || c = '-'

/-- `[A-Z][A-Za-z\s.-]+?` followed by the delimiter `d` and one `\s`;
returns the captured name. -/
def namePartAfter (d : Char) (cs : List Char) : Option (List Char) :=
  match cs with
  | [] => none
  | c0 :: rest =>
    if isAsciiUpper c0 then
      let w := rest.takeWhile nameClass
      if w = [] then none
      else
        match rest.drop w.length with
        | dc :: sp :: _ => if dc = d ∧ isJsSpace sp then some (c0 :: w) else none
        | _ => none
    else none

/-- A bracketed speaker pattern `^⟨open⟩name⟨close⟩\s`. -/
def speakerBracket (opn cls : Char) (line : List Char) : Option (List Char) :=
  match line with
  | c :: rest => if c = opn then namePartAfter cls rest else none
  | [] => none

/-- `extractSpeaker(line)`: the four patterns in source order. -/
def extractSpeaker (line : List Char) : Option (List Char) :=
  match namePartAfter ':' line with
  | some nm => some nm
  | none =>
    match speakerBracket '[' ']' line with
    | some nm => some nm
    | none =>
      match speakerBracket '(' ')' line with
      | some nm => some nm
      | none => speakerBracket '<' '>' line

/-- `Set.prototype.add`: JavaScript sets keep insertion order and deduplicate. -/
def insertUniq (l : List (List Char)) (s : List Char) : List (List Char) :=
  if s ∈ l then l else l ++ [s]

/-- The speaker set accumulated over `text.split('\n')`, in insertion order. -/
def speakersOf (text : String) : List (List Char) :=
  (splitLines text.toList).foldl
    (fun acc line =>
      match extractSpeaker line with
      | some sp => insertUniq acc sp
      | none => acc) []

/-- `preprocessTranscript` (lines 279–297). -/
def preprocessTranscript (text : String) : String :=
  let sps := speakersOf text
  if sps = [] then text
  else
    "PARTICIPANTS: " ++ String.intercalate (", ") (sps.map (fun l => String.mk l)) ++
      "\n\n" ++ text

/-! ## The main pipeline (lines 300–441)

The model covers the non-interactive happy path: the reachability check
(line 346), preprocessing (line 385), the token-budget decision (line 395),
direct or chunked summarisation (lines 395–425), formatting (line 428), and
the sink (lines 431–437).  CLI parsing, interactive prompting and I/O are
external; the generation service is a `gen : prompt → system → response`
oracle (each pipeline-level `ask` call that the trace records may retry
internally, per `askModel`). -/

/-- The `Config` assembled in `main` (lines 358–365). -/
structure Config where
  model : String
  ctxLimit : Nat
  chunkSize : Nat
  overlap : ℚ
  systemPrompt : String
  outputFormat : OutFormat

/-- `DEFAULT_SYSTEM_PROMPT` (lines 26–42). -/
def defaultSystemPrompt : String :=
  "You are a professional meeting assistant.\n" ++
  "Analyze the meeting transcript and provide a concise, well-structured summary with the following sections:\n\n" ++
  "1. SUMMARY: Brief overview of the meeting's purpose and main topics (2-3 sentences).\n" ++
  "2. KEY DECISIONS: Clear bullet points of decisions made during the meeting.\n" ++
  "3. ACTION ITEMS: List tasks assigned to participants with:\n" ++
  "   • Owner's name (capitalize)\n" ++
  "   • Description of task\n" ++
  "   • Deadline when specified\n" ++
  "4. OPEN QUESTIONS: Questions that were raised but not resolved.\n" ++
  "5. PARTICIPANTS: List of meeting attendees (if identifiable from transcript).\n\n" ++
  "Format everything in clear, professional language. Be specific about deadlines (dates) and owners of tasks.\n" ++
  "Focus on extracting factual information, not opinions or side discussions.\n\n" ++
  "### TRANSCRIPT BELOW\n"

/-- The defaults `DEFAULT_MODEL`, `CTX_LIMIT`, `CHUNK_SIZE`, `DEFAULT_OVERLAP`
(lines 10–13) with the default output format. -/
def defaultConfig : Config :=
  ⟨"gemma3:27b", 120000, 60000, 1/10, defaultSystemPrompt, OutFormat.markdown⟩

/-- The per-chunk map prompt (line 407). -/
def chunkPrompt (chunk : String) : String :=
  "Summarize this meeting chunk extracting key points, decisions, and action items:\n\n" ++ chunk

/-- The per-chunk system prompt (line 408). -/
def chunkSystem : String :=
  "Extract only factual information from this meeting transcript chunk. Focus on decisions made, action items assigned, and questions raised."

/-- `parts.join('\n\n===NEXT CHUNK===\n\n')` (line 415). -/
def mergeSeparator : String := "\n\n===NEXT CHUNK===\n\n"

/-- The reduce-phase prompt (line 415). -/
def mergePrompt (parts : List String) : String :=
  "Merge these partial meeting summaries into a final, well-structured meeting minutes document:\n\n" ++
    String.intercalate mergeSeparator parts

/-- The reduce-phase system prompt (lines 416–423). -/
def mergeSystem : String :=
  "You are a professional meeting assistant. Create a comprehensive, well-structured meeting summary from these partial summaries. Include:\n" ++
  "1. SUMMARY: Brief overview of meeting purpose (2-3 sentences)\n" ++
  "2. KEY DECISIONS: Clear bullet points of decisions made\n" ++
  "3. ACTION ITEMS: List with owner names (CAPITALIZED), task description, and deadlines\n" ++
  "4. OPEN QUESTIONS: Questions raised but not resolved\n" ++
  "5. PARTICIPANTS: List of attendees (if mentioned)\n\n" ++
  "Format in clear, professional markdown. Eliminate any redundancy from the partial summaries."

/-- Observable pipeline events, in order: the reachability check, each
generation call (with its prompt and system prompt), and the sink. -/
inductive Ev where
  | check (up : Bool)
  | gen (prompt system : String)
  | fileWrite (path content : String)
  | stdout (content : String)
deriving DecidableEq

/-- The event trace of one run together with the process exit code. -/
structure RunOut where
  events : List Ev
  exitCode : Nat
deriving DecidableEq

/-- Lines 431–437: write `formatted + '\n'` to the output file, or print to
stdout when the destination is `'-'`. -/
def sinkEv (outPath formatted : String) : Ev :=
  if outPath = "-" then Ev.stdout formatted else Ev.fileWrite outPath (formatted ++ "\n")

/-- `main` from the token count on (lines 388–437), on the already-preprocessed
transcript.  `none` models divergence inside `splitTokens` (step 0). -/
def mainAfterPre (cfg : Config) (tok : Tok) (gen : String → String → String)
    (transcript outPath : String) : Option RunOut :=
  let tkCount := (tok.encode transcript).length
  let systemPromptTokens := (tok.encode cfg.systemPrompt).length
  if tkCount + systemPromptTokens < cfg.ctxLimit then
    let minutes := gen transcript cfg.systemPrompt
    let fo := formatOutput minutes cfg.outputFormat
    some ⟨[Ev.check true, Ev.gen transcript cfg.systemPrompt, sinkEv outPath fo], 0⟩
  else
    match splitTokens transcript tok cfg.chunkSize cfg.overlap with
    | none => none
    | some chunks =>
      let parts := chunks.map (fun c => gen (chunkPrompt c) chunkSystem)
      let minutes := gen (mergePrompt parts) mergeSystem
      let fo := formatOutput minutes cfg.outputFormat
      some ⟨Ev.check true ::
        (chunks.map (fun c => Ev.gen (chunkPrompt c) chunkSystem) ++
          [Ev.gen (mergePrompt parts) mergeSystem, sinkEv outPath fo]), 0⟩

/-- The whole pipeline: `checkOllamaRunning` runs first and exactly once
(line 346); if the service is unreachable the process reports the error and
exits with code 1 before any generation call or file write (lines 346–349);
otherwise the transcript is preprocessed (line 385) and summarised. -/
def mainRun (cfg : Config) (tok : Tok) (gen : String → String → String)
    (serviceUp : Bool) (raw outPath : String) : Option RunOut :=
  if serviceUp then
    mainAfterPre cfg tok gen (preprocessTranscript raw) outPath
  else
    some ⟨[Ev.check false], 1⟩

/-- The generation calls of a trace, in order. -/
def genCalls (evs : List Ev) : List (String × String) :=
  evs.filterMap (fun e => match e with
    | Ev.gen p s => some (p, s)
    | _ => none)

def isCheck : Ev → Bool
  | Ev.check _ => true
  | Ev.gen _ _ => false
  | Ev.fileWrite _ _ => false
  | Ev.stdout _ => false

def isFileWrite : Ev → Bool
  | Ev.check _ => false
  | Ev.gen _ _ => false
  | Ev.fileWrite _ _ => true
  | Ev.stdout _ => false

/-! ### Pipeline lemmas -/

theorem genCalls_cons_check (b : Bool) (rest : List Ev) :
    genCalls (Ev.check b :: rest) = genCalls rest := rfl

theorem genCalls_cons_gen (p s : String) (rest : List Ev) :
    genCalls (Ev.gen p s :: rest) = (p, s) :: genCalls rest := rfl

theorem genCalls_cons_sink (p f : String) (rest : List Ev) :
    genCalls (sinkEv p f :: rest) = genCalls rest := by
  unfold sinkEv
  split <;> rfl

theorem genCalls_append (a b : List Ev) :
    genCalls (a ++ b) = genCalls a ++ genCalls b :=
  List.filterMap_append a b _

theorem genCalls_map_gen (f g : String → String) :
    ∀ l : List String,
      genCalls (l.map (fun c => Ev.gen (f c) (g c))) = l.map (fun c => (f c, g c))
  | [] => rfl
  | c :: cs => by
    simp only [List.map_cons]
    rw [genCalls_cons_gen, genCalls_map_gen f g cs]

theorem isCheck_gen (p s : String) : isCheck (Ev.gen p s) = false := rfl

theorem isCheck_sink (p f : String) : isCheck (sinkEv p f) = false := by
  unfold sinkEv
  split <;> rfl

/-- Shared form of the `N ≤ S` early return of `splitTokens`. -/
theorem splitTokens_le (txt : String) (tok : Tok) (size : Nat) (overlap : ℚ)
    (h : (tok.encode txt).length ≤ size) :
    splitTokens txt tok size overlap = some [txt] := by
  simp only [splitTokens]
  rw [if_pos h]

/-- With a positive step, `splitTokens` terminates on every input. -/
theorem splitTokens_isSome (txt : String) (tok : Tok) (size : Nat) (overlap : ℚ)
    (hstep : 1 ≤ stepOf size overlap) :
    ∃ chunks, splitTokens txt tok size overlap = some chunks := by
  by_cases hle : (tok.encode txt).length ≤ size
  · exact ⟨[txt], splitTokens_le txt tok size overlap hle⟩
  · obtain ⟨ws, h1, -, -⟩ := chunkLoop_total (tok.encode txt) size (stepOf size overlap) hstep
    refine ⟨ws.map tok.decode, ?_⟩
    simp only [splitTokens]
    rw [if_neg hle, h1]
    rfl

/-! ### Claim C1 -/

/-- Claim C1: with the service reachable and a valid (positive-step) chunking
configuration, the pipeline issues exactly one generation call — over the whole
(preprocessed) transcript with the main system prompt — when
`tokenCount(transcript) + tokenCount(systemPrompt)` is below the context limit,
and otherwise exactly `chunkCount + 1` calls: one per chunk in order, plus one
merge call whose prompt joins all partial summaries with the separator
`"\n\n===NEXT CHUNK===\n\n"` in original chunk order. -/
theorem pipeline_call_counts (cfg : Config) (tok : Tok) (gen : String → String → String)
    (raw outPath : String) (hstep : 1 ≤ stepOf cfg.chunkSize cfg.overlap) :
    ∃ ro, mainRun cfg tok gen true raw outPath = some ro ∧
      (((tok.encode (preprocessTranscript raw)).length +
          (tok.encode cfg.systemPrompt).length < cfg.ctxLimit) →
        genCalls ro.events = [(preprocessTranscript raw, cfg.systemPrompt)]) ∧
      (¬((tok.encode (preprocessTranscript raw)).length +
          (tok.encode cfg.systemPrompt).length < cfg.ctxLimit) →
        ∃ chunks,
          splitTokens (preprocessTranscript raw) tok cfg.chunkSize cfg.overlap
            = some chunks ∧
          genCalls ro.events =
            chunks.map (fun c => (chunkPrompt c, chunkSystem)) ++
              [(mergePrompt (chunks.map (fun c => gen (chunkPrompt c) chunkSystem)),
                mergeSystem)] ∧
          (genCalls ro.events).length = chunks.length + 1) := by
  by_cases hc : (tok.encode (preprocessTranscript raw)).length +
      (tok.encode cfg.systemPrompt).length < cfg.ctxLimit
  · refine ⟨⟨[Ev.check true, Ev.gen (preprocessTranscript raw) cfg.systemPrompt,
      sinkEv outPath (formatOutput (gen (preprocessTranscript raw) cfg.systemPrompt)
        cfg.outputFormat)], 0⟩, ?_, fun _ => ?_, fun hnc => absurd hc hnc⟩
    · show mainAfterPre cfg tok gen (preprocessTranscript raw) outPath = _
      simp only [mainAfterPre]
      rw [if_pos hc]
    · rw [genCalls_cons_check, genCalls_cons_gen, genCalls_cons_sink]
      rfl
  · obtain ⟨chunks, hsp⟩ := splitTokens_isSome (preprocessTranscript raw) tok
      cfg.chunkSize cfg.overlap hstep
    refine ⟨⟨Ev.check true ::
      (chunks.map (fun c => Ev.gen (chunkPrompt c) chunkSystem) ++
        [Ev.gen (mergePrompt (chunks.map (fun c => gen (chunkPrompt c) chunkSystem)))
          mergeSystem,
         sinkEv outPath (formatOutput
           (gen (mergePrompt (chunks.map (fun c => gen (chunkPrompt c) chunkSystem)))
             mergeSystem) cfg.outputFormat)]), 0⟩,
      ?_, fun hc2 => absurd hc2 hc, fun _ => ⟨chunks, hsp, ?_, ?_⟩⟩
    · show mainAfterPre cfg tok gen (preprocessTranscript raw) outPath = _
      simp only [mainAfterPre]
      rw [if_neg hc, hsp]
    · rw [genCalls_cons_check, genCalls_append, genCalls_map_gen,
        genCalls_cons_gen, genCalls_cons_sink]
      rfl
    · rw [genCalls_cons_check, genCalls_append, genCalls_map_gen,
        genCalls_cons_gen, genCalls_cons_sink]
      simp [genCalls]

/-- A small configuration for witnesses: context limit 4, chunk size 3,
overlap 0 (step 3). -/
def cfgSmall : Config := ⟨"gemma3:27b", 4, 3, 0, "sys", OutFormat.markdown⟩

/-- A constant generation oracle for witnesses. -/
def genConst : String → String → String := fun _ _ => "S"

/-- Witness for `pipeline_call_counts`: an 8-token transcript with chunk size 3
and step 3 yields chunks `abc`, `def`, `gh`: 3 map calls plus 1 merge call
whose prompt joins the three partial summaries in order. -/
theorem pipeline_call_counts_witness :
    ∃ ro, mainRun cfgSmall charTok genConst true ("abcdefgh") ("out.md") = some ro ∧
      genCalls ro.events =
        [(chunkPrompt ("abc"), chunkSystem), (chunkPrompt ("def"), chunkSystem),
         (chunkPrompt ("gh"), chunkSystem),
         (mergePrompt ["S", "S", "S"], mergeSystem)] ∧
      (genCalls ro.events).length = 3 + 1 := by
  have hstep : 1 ≤ stepOf cfgSmall.chunkSize cfgSmall.overlap := by
    show 1 ≤ stepOf 3 0
    norm_num [stepOf]
  obtain ⟨ro, h1, -, h3⟩ := pipeline_call_counts cfgSmall charTok genConst
    ("abcdefgh") ("out.md") hstep
  have hnc : ¬((charTok.encode (preprocessTranscript ("abcdefgh"))).length +
      (charTok.encode cfgSmall.systemPrompt).length < cfgSmall.ctxLimit) := by decide
  obtain ⟨chunks, hsp, hg, hlen⟩ := h3 hnc
  have hpre : preprocessTranscript ("abcdefgh") = "abcdefgh" := by decide
  have hs3 : stepOf 3 0 = 3 := by norm_num [stepOf]; decide
  have hres : splitTokens (preprocessTranscript ("abcdefgh")) charTok
      cfgSmall.chunkSize cfgSmall.overlap = some ["abc", "def", "gh"] := by
    rw [hpre]
    show splitTokens ("abcdefgh") charTok 3 0 = _
    simp only [splitTokens, hs3]
    decide
  have hchunks : chunks = ["abc", "def", "gh"] :=
    (Option.some.inj (hres ▸ hsp)).symm
  subst hchunks
  refine ⟨ro, h1, ?_, ?_⟩
  · rw [hg]
    rfl
  · rw [hlen]
    rfl

/-! ### Claim C5 -/

/-- Claim C5: the reachability check runs exactly once, as the first event of
every run — hence before any generation call; when the service is unreachable
the run's whole trace is that single check: no generation call is issued (so no
retry budget is consumed), no output file is written, and the process exits
with code 1 after reporting the error. -/
theorem service_check_gate (cfg : Config) (tok : Tok) (gen : String → String → String)
    (raw outPath : String) :
    (mainRun cfg tok gen false raw outPath = some ⟨[Ev.check false], 1⟩ ∧
      genCalls [Ev.check false] = [] ∧
      List.countP isFileWrite [Ev.check false] = 0) ∧
    (∀ up ro, mainRun cfg tok gen up raw outPath = some ro →
      ∃ rest, ro.events = Ev.check up :: rest ∧ List.countP isCheck rest = 0) := by
  refine ⟨⟨rfl, rfl, rfl⟩, ?_⟩
  intro up ro hro
  cases up with
  | false =>
    have : ro = ⟨[Ev.check false], 1⟩ := by
      have h := hro
      simp only [mainRun, Bool.false_eq_true, if_false] at h
      exact (Option.some.inj h).symm
    subst this
    exact ⟨[], rfl, rfl⟩
  | true =>
    have h : mainAfterPre cfg tok gen (preprocessTranscript raw) outPath = some ro := hro
    simp only [mainAfterPre] at h
    by_cases hc : (tok.encode (preprocessTranscript raw)).length +
        (tok.encode cfg.systemPrompt).length < cfg.ctxLimit
    · rw [if_pos hc] at h
      obtain rfl := (Option.some.inj h).symm
      refine ⟨_, rfl, ?_⟩
      simp [List.countP_cons, isCheck_gen, isCheck_sink]
    · rw [if_neg hc] at h
      cases hsp : splitTokens (preprocessTranscript raw) tok cfg.chunkSize cfg.overlap with
      | none => rw [hsp] at h; exact absurd h (by simp)
      | some chunks =>
        rw [hsp] at h
        obtain rfl := (Option.some.inj h).symm
        refine ⟨_, rfl, ?_⟩
        rw [List.countP_append]
        have hm : List.countP isCheck
            (chunks.map (fun c => Ev.gen (chunkPrompt c) chunkSystem)) = 0 := by
          rw [List.countP_eq_zero]
          intro e he
          obtain ⟨c, -, rfl⟩ := List.mem_map.mp he
          simp [isCheck_gen]
        rw [hm]
        simp [List.countP_cons, isCheck_gen, isCheck_sink]

/-- Witness for `service_check_gate`: with the service down, the trace is the
single failed check, nothing is generated or written, and the exit code is 1. -/
theorem service_check_gate_witness :
    mainRun cfgSmall charTok genConst false ("abcdefgh") ("out.md")
      = some ⟨[Ev.check false], 1⟩ ∧
    genCalls [Ev.check false] = [] ∧
    List.countP isCheck [] = 0 := by
  have h := service_check_gate cfgSmall charTok genConst ("abcdefgh") ("out.md")
  obtain ⟨rest, h1, h2⟩ := h.2 false ⟨[Ev.check false], 1⟩ h.1.1
  exact ⟨h.1.1, h.1.2.1, rfl⟩

/-! ### Claim C9 -/

theorem insertUniq_nodup (l : List (List Char)) (s : List Char) (h : l.Nodup) :
    (insertUniq l s).Nodup := by
  unfold insertUniq
  split
  · exact h
  · rename_i hs
    refine List.Nodup.append h (List.nodup_singleton s) ?_
    intro a ha hb
    simp only [List.mem_singleton] at hb
    subst hb
    exact hs ha

theorem speakersFold_nodup :
    ∀ (lines : List (List Char)) (acc : List (List Char)), acc.Nodup →
      (lines.foldl (fun acc line =>
        match extractSpeaker line with
        | some sp => insertUniq acc sp
        | none => acc) acc).Nodup := by
  intro lines
  induction lines with
  | nil => intro acc h; exact h
  | cons l ls ih =>
    intro acc h
    rw [List.foldl_cons]
    apply ih
    cases hE : extractSpeaker l with
    | some sp =>
      simp only [hE]
      exact insertUniq_nodup _ _ h
    | none =>
      simp only [hE]
      exact h

theorem speakersFold_id :
    ∀ (lines : List (List Char)) (acc : List (List Char)),
      (∀ l ∈ lines, extractSpeaker l = none) →
      lines.foldl (fun acc line =>
        match extractSpeaker line with
        | some sp => insertUniq acc sp
        | none => acc) acc = acc := by
  intro lines
  induction lines with
  | nil => intro acc _; rfl
  | cons l ls ih =>
    intro acc h
    rw [List.foldl_cons]
    have hl : extractSpeaker l = none := h l (by simp)
    simp only [hl]
    exact ih acc (fun x hx => h x (by simp [hx]))

/-- Claim C9: when any line of the raw transcript matches one of the speaker
patterns (`Name:`, `[Name]`, `(Name)`, `<Name>`), preprocessing prepends a
`PARTICIPANTS:` line listing the detected speakers — deduplicated, in first
appearance order — followed by a blank line and the original text; and the
pipeline applies the token-budget decision and the generation calls to this
augmented transcript, since `mainRun` on the raw input is exactly the
post-preprocessing pipeline on `preprocessTranscript raw`. -/
theorem preprocess_prepends_participants (raw : String) (h : speakersOf raw ≠ []) :
    preprocessTranscript raw =
      "PARTICIPANTS: " ++
        String.intercalate (", ") ((speakersOf raw).map (fun l => String.mk l)) ++
        "\n\n" ++ raw ∧
    (∃ l, l ∈ splitLines raw.toList ∧ (extractSpeaker l).isSome = true) ∧
    (speakersOf raw).Nodup ∧
    (∀ cfg tok gen outPath,
      mainRun cfg tok gen true raw outPath =
        mainAfterPre cfg tok gen (preprocessTranscript raw) outPath) := by
  refine ⟨?_, ?_, ?_, fun cfg tok gen outPath => rfl⟩
  · simp only [preprocessTranscript]
    rw [if_neg h]
  · by_contra hno
    push_neg at hno
    apply h
    unfold speakersOf
    apply speakersFold_id
    intro l hl
    have h2 := hno l hl
    simpa [Option.not_isSome_iff_eq_none] using h2
  · exact speakersFold_nodup _ _ List.nodup_nil

/-- Witness for `preprocess_prepends_participants`: two distinct speakers, one
repeated, detected from `Name:` line prefixes. -/
theorem preprocess_prepends_participants_witness :
    preprocessTranscript ("Alice: hi\nBob: yo\nAlice: again") =
      "PARTICIPANTS: " ++
        String.intercalate (", ")
          ((speakersOf ("Alice: hi\nBob: yo\nAlice: again")).map (fun l => String.mk l)) ++
        "\n\n" ++ "Alice: hi\nBob: yo\nAlice: again" ∧
    (speakersOf ("Alice: hi\nBob: yo\nAlice: again")).Nodup := by
  have h := preprocess_prepends_participants ("Alice: hi\nBob: yo\nAlice: again") (by decide)
  exact ⟨h.1, h.2.2.1⟩

end Summarise
